import Mathlib

/-!
Verification of the storage-engine substrate of the bustub-style repository:
persistent trie (src/unnamed/part_002), LRU-K replacer
(src/src/buffer/lru_k_replacer.cpp), buffer pool manager
(src/unnamed/part_000) and disk scheduler worker (src/unnamed/part_001),
shallowly embedded in Lean. Machine sizes: timestamps and k-distances are
size_t values; SIZE_MAX is 2^64 - 1. Concurrency is serialized in the
source (every public operation holds a single mutex), so each operation is
embedded as a pure state transformer; C++ exceptions and undefined
behaviour (null dereference) are embedded as `none` / `Option` failure.
-/

namespace BusTub

/-! ### Persistent trie (src/unnamed/part_002)

The C++ trie stores children in a `std::map<char, shared_ptr<const TrieNode>>`
and distinguishes `TrieNode` (interior) from `TrieNodeWithValue<T>`.  Values
are type-erased here as a pair of a type tag and a payload (the design notes
of the spec describe exactly this re-architecture); `dynamic_cast` on get
becomes a tag comparison.  Children are kept as an association list; the
claims never depend on the iteration order of the map. -/

mutual
/-- Embedding of the C++ TrieNode hierarchy: an interior node carries only a
children map, a value node carries children plus a type-tagged payload. -/
inductive TrieNode : Type where
  | interior (children : ChildList)
  | valued (children : ChildList) (tag : Nat) (data : Nat)

/-- Children map of a trie node (std::map from char to child node). -/
inductive ChildList : Type where
  | nil
  | cons (c : Char) (node : TrieNode) (rest : ChildList)
end

/-- Lookup of a child by character (children_.find). -/
def ChildList.find (c : Char) : ChildList → Option TrieNode
  | .nil => none
  | .cons c0 n rest => if c0 = c then some n else ChildList.find c rest

/-- Insert-or-assign of a child (children_[c] = n). -/
def ChildList.set (c : Char) (n : TrieNode) : ChildList → ChildList
  | .nil => .cons c n .nil
  | .cons c0 m rest =>
      if c0 = c then .cons c0 n rest else .cons c0 m (ChildList.set c n rest)

/-- Erase of a child (children_.erase(c)). -/
def ChildList.erase (c : Char) : ChildList → ChildList
  | .nil => .nil
  | .cons c0 m rest => if c0 = c then rest else .cons c0 m (ChildList.erase c rest)

/-- Number of children (children_.size()). -/
def ChildList.size : ChildList → Nat
  | .nil => 0
  | .cons _ _ rest => ChildList.size rest + 1

/-- Emptiness test (children_.empty()). -/
def ChildList.isEmpty : ChildList → Bool
  | .nil => true
  | .cons _ _ _ => false

/-- Children of a node. -/
def TrieNode.children : TrieNode → ChildList
  | .interior cs => cs
  | .valued cs _ _ => cs

/-- The is_value_node_ flag. -/
def TrieNode.isValueNode : TrieNode → Bool
  | .interior _ => false
  | .valued _ _ _ => true

/-- Result of dynamic_cast on get: the payload when the node is a value node
whose type tag matches the requested one, otherwise none. -/
def TrieNode.valueAt (tag : Nat) : TrieNode → Option Nat
  | .interior _ => none
  | .valued _ tg d => if tg = tag then some d else none

/-- Assign one child of a (cloned) node; Clone preserves the dynamic type, so
a value node keeps its value. -/
def TrieNode.setChild : TrieNode → Char → TrieNode → TrieNode
  | .interior cs, c, n => .interior (cs.set c n)
  | .valued cs tg d, c, n => .valued (cs.set c n) tg d

/-- Erase one child of a (cloned) node. -/
def TrieNode.eraseChild : TrieNode → Char → TrieNode
  | .interior cs, c => .interior (cs.erase c)
  | .valued cs tg d, c => .valued (cs.erase c) tg d

/-- Replace the children map of a (cloned) node by the empty map
(tmp_leaf->children_ = std::map(...) in Remove). -/
def TrieNode.clearChildren : TrieNode → TrieNode
  | .interior _ => .interior .nil
  | .valued _ tg d => .valued .nil tg d

/-- Owning handle to an optional root node; the empty trie has no root. -/
structure Trie : Type where
  root : Option TrieNode

/-- The walk of Trie::Get over the remaining key, from src/unnamed/part_002
lines 36-53: a missing edge yields none; at the last character the child is
dynamic_cast to the requested value type. The in-loop children_.empty()
check is subsumed by the failing find. -/
def getLoop (cur : TrieNode) (c : Char) (rest : List Char) (tag : Nat) : Option Nat :=
  match cur.children.find c with
  | none => none
  | some child =>
    match rest with
    | [] => child.valueAt tag
    | c2 :: r => getLoop child c2 r tag

/-- Trie::Get (src/unnamed/part_002 lines 7-55). Empty key reads the root;
otherwise the trie is walked character by character. -/
def Trie.get (t : Trie) (key : List Char) (tag : Nat) : Option Nat :=
  match key with
  | [] =>
    match t.root with
    | none => none
    | some r => r.valueAt tag
  | c :: rest =>
    match t.root with
    | none => none
    | some r => if r.children.isEmpty then none else getLoop r c rest tag

/-- The fresh chain built by step 1 of Trie::Put for the suffix of the key
below the current character: tmp_root child for the next character. -/
def graft (rest : List Char) (tag data : Nat) : TrieNode :=
  match rest with
  | [] => .valued .nil tag data
  | c :: r => .interior (.cons c (graft r tag data) .nil)

/-- The copy-on-write walk of step 2 of Trie::Put (src/unnamed/part_002
lines 99-127): a missing edge grafts the fresh chain for the remaining
suffix; the terminal child is replaced by a value node preserving its
children; otherwise the matched child is cloned and the walk descends. -/
def putLoop (cur : TrieNode) (c : Char) (rest : List Char) (tag data : Nat) : TrieNode :=
  match cur.children.find c with
  | none => cur.setChild c (graft rest tag data)
  | some child =>
    match rest with
    | [] => cur.setChild c (.valued child.children tag data)
    | c2 :: r => cur.setChild c (putLoop child c2 r tag data)

/-- Trie::Put (src/unnamed/part_002 lines 57-132). With the empty key the
code runs root_->Clone() before any null check, so putting the empty key
into the empty trie dereferences a null pointer: embedded as none. With a
non-empty key and a null root the fresh chain becomes the new trie. -/
def Trie.put (t : Trie) (key : List Char) (tag data : Nat) : Option Trie :=
  match key, t.root with
  | [], none => none
  | [], some r => some ⟨some (.valued r.children tag data)⟩
  | c :: rest, none => some ⟨some (.interior (.cons c (graft rest tag data) .nil))⟩
  | c :: rest, some r => some ⟨some (putLoop r c rest tag data)⟩

/-- Signals of the functional reading of the Trie::Remove walk
(src/unnamed/part_002 lines 134-205).  miss: some edge of the key was
absent, the receiver is returned unchanged.  node n: the subtree rooted at
the current child is replaced by n.  pruned n: the child subtree n left
behind by the walk is a garbage chain (every node on it had exactly one
child and no value, and the childless terminal was erased at its bottom);
whether it is discarded depends on the ancestors, mirroring the tmp_leaf
pointer of the C++ code: tmp_leaf is the deepest node with exactly one
child and a value that is not followed by a node with a different child
count, and clearing is skipped entirely when tmp_leaf still equals
new_root. -/
inductive RemSig : Type where
  | miss
  | node (n : TrieNode)
  | pruned (n : TrieNode)

/-- One level of the Trie::Remove walk below the root: cur is the (clone of
the) node whose edge c is processed, rest the remaining key.  The
size-one-and-valued test at cur reproduces the tmp_leaf updates of the C++
loop: such a cur becomes the anchor whose children map is cleared, a
size-one valueless cur lets the prune request keep travelling, and any
other cur resets tmp_leaf to new_root so that the garbage chain below it is
attached unpruned (faithful to the source, which skips the clearing in that
case). -/
def remCore (cur : TrieNode) (c : Char) (rest : List Char) : RemSig :=
  match cur.children.find c with
  | none => .miss
  | some child =>
    match rest with
    | [] =>
      if child.children.isEmpty then
        if cur.children.size = 1 then
          if cur.isValueNode then .node (cur.eraseChild c)
          else .pruned (cur.eraseChild c)
        else .node (cur.eraseChild c)
      else .node (cur.setChild c (.interior child.children))
    | c2 :: r =>
      match remCore child c2 r with
      | .miss => .miss
      | .node n => .node (cur.setChild c n)
      | .pruned chain =>
        if cur.children.size = 1 then
          if cur.isValueNode then .node cur.clearChildren
          else .pruned (cur.setChild c chain)
        else .node (cur.setChild c chain)

/-- Trie::Remove (src/unnamed/part_002 lines 134-205).  The code runs
this->root_->Clone() before anything else, so removal from the empty trie
dereferences a null pointer: embedded as none.  An empty key rebuilds the
root as a plain interior node.  Otherwise the walk runs; at the top level
the tmp_leaf anchor test degenerates: a qualifying root is new_root itself,
so the clearing is skipped, and is_empty_trie (all walked nodes had one
child and no value, terminal childless) nulls the root. -/
def Trie.remove (t : Trie) (key : List Char) : Option Trie :=
  match t.root with
  | none => none
  | some r =>
    match key with
    | [] => some ⟨some (.interior r.children)⟩
    | c :: rest =>
      match rest with
      | [] =>
        match r.children.find c with
        | none => some t
        | some child =>
          if child.children.isEmpty then
            if r.children.size = 1 then
              if r.isValueNode then some ⟨some (r.eraseChild c)⟩
              else some ⟨none⟩
            else some ⟨some (r.eraseChild c)⟩
          else some ⟨some (r.setChild c (.interior child.children))⟩
      | c2 :: rest2 =>
        match r.children.find c with
        | none => some t
        | some child =>
          match remCore child c2 rest2 with
          | .miss => some t
          | .node n => some ⟨some (r.setChild c n)⟩
          | .pruned chain =>
            if r.children.size = 1 then
              if r.isValueNode then some ⟨some (r.setChild c chain)⟩
              else some ⟨none⟩
            else some ⟨some (r.setChild c chain)⟩

mutual
/-- A node satisfies the structural invariant of the spec when it is not a
childless valueless interior node and all its children do too. -/
def nodeOk : TrieNode → Bool
  | .interior cs => !cs.isEmpty && childrenOk cs
  | .valued cs _ _ => childrenOk cs

/-- All nodes of a children map satisfy the structural invariant. -/
def childrenOk : ChildList → Bool
  | .nil => true
  | .cons _ n rest => nodeOk n && childrenOk rest
end

/-- Structural invariant of the spec for a whole trie: no interior node is
both childless and valueless, except possibly the root (which is exempt
exactly when the trie is otherwise empty, and a childless root is exactly
that case). -/
def Trie.invariantB (t : Trie) : Bool :=
  match t.root with
  | none => true
  | some r => childrenOk r.children

/-- The empty trie. -/
def emptyTrie : Trie := ⟨none⟩

/-- Concrete trie for the C7 scenario: put of key ab then a root value;
both puts take non-crashing paths of the source. -/
def c7Trie : Option Trie :=
  (Trie.put emptyTrie [Char.ofNat 97, Char.ofNat 98] 0 2).bind fun t1 =>
    Trie.put t1 [] 0 5

/-- Invariant check of the C7 scenario before the removal. -/
def c7Before : Option Bool := c7Trie.map Trie.invariantB

/-- Invariant check of the C7 scenario after removing key ab. -/
def c7After : Option Bool :=
  c7Trie.bind fun t2 => (Trie.remove t2 [Char.ofNat 97, Char.ofNat 98]).map Trie.invariantB

/-! ### LRU-K replacer (src/src/buffer/lru_k_replacer.cpp)

All public operations hold the single replacer latch, so each is a pure
state transformer; a thrown Exception is embedded as `none`.  Timestamps
are the size_t nanosecond counts the source reads from the clock inside
each call; they are passed in as an explicit argument.  node_store_ is an
association list with the unique-key discipline of the C++ map; the claims
proved below do not depend on its iteration order. -/

/-- SIZE_MAX of the 64-bit target, the value assigned to infinite
backward k-distances by Evict. -/
def SIZEMAX : Nat := 2 ^ 64 - 1

/-- Per-frame replacer node: access history (most recent first, as
push_front builds it, at most k entries) and the evictable flag.  The
fid_ and k_ fields of the C++ node duplicate the map key and the replacer
constant and are not repeated here. -/
structure LRUKNode : Type where
  history : List Nat
  isEvictable : Bool
deriving DecidableEq

/-- Lookup in a frame-id keyed association list (map::count / operator[]). -/
def lookupFid (fid : Nat) : List (Nat × LRUKNode) → Option LRUKNode
  | [] => none
  | p :: rest => if p.1 = fid then some p.2 else lookupFid fid rest

/-- Insert-or-assign in a frame-id keyed association list. -/
def storeSet (fid : Nat) (n : LRUKNode) : List (Nat × LRUKNode) → List (Nat × LRUKNode)
  | [] => [(fid, n)]
  | p :: rest => if p.1 = fid then (fid, n) :: rest else p :: storeSet fid n rest

/-- Erase of a key from a frame-id keyed association list. -/
def eraseFid (fid : Nat) : List (Nat × LRUKNode) → List (Nat × LRUKNode)
  | [] => []
  | p :: rest => if p.1 = fid then rest else p :: eraseFid fid rest

/-- Replacer state: node_store_, the evictable_node_ mirror maintained by
EnableEvictable/DisableEvictable (written but never read by the source),
curr_size_ (known frames), replacer_size_ (evictable frames, what Size
returns), max_size_ and the policy parameter k_. -/
structure LRUKReplacer : Type where
  nodeStore : List (Nat × LRUKNode)
  evictableNode : List (Nat × LRUKNode)
  currSize : Nat
  replacerSize : Nat
  maxSize : Nat
  k : Nat
deriving DecidableEq

/-- LRUKReplacer constructor. -/
def LRUKReplacer.init (numFrames k : Nat) : LRUKReplacer := ⟨[], [], 0, 0, numFrames, k⟩

/-- AddFrames: first insertion of a frame creates its node with the single
current timestamp and the default non-evictable flag. -/
def LRUKReplacer.addFrames (r : LRUKReplacer) (fid : Nat) (now : Nat) : LRUKReplacer :=
  { r with currSize := r.currSize + 1,
           nodeStore := storeSet fid ⟨[now], false⟩ r.nodeStore }

/-- RecordAccess (src/src/buffer/lru_k_replacer.cpp lines 68-94): an unknown
frame (or an empty replacer) goes through AddFrames; otherwise the current
timestamp is pushed at the front of the history, which is trimmed at the
back when it exceeds k entries. -/
def LRUKReplacer.recordAccess (r : LRUKReplacer) (fid : Nat) (now : Nat) : LRUKReplacer :=
  match lookupFid fid r.nodeStore with
  | none => r.addFrames fid now
  | some node =>
    if r.currSize = 0 then r.addFrames fid now
    else
      let h1 := now :: node.history
      let h2 := if h1.length > r.k then h1.dropLast else h1
      { r with nodeStore := storeSet fid { node with history := h2 } r.nodeStore }

/-- SetEvictable (src/src/buffer/lru_k_replacer.cpp lines 96-123): throws on
an unknown frame; no-op when the flag already matches; EnableEvictable
raises replacer_size_ and throws past max_size_; DisableEvictable lowers
it and drops the evictable_node_ entry. -/
def LRUKReplacer.setEvictable (r : LRUKReplacer) (fid : Nat) (flag : Bool) :
    Option LRUKReplacer :=
  match lookupFid fid r.nodeStore with
  | none => none
  | some node =>
    if flag = node.isEvictable then some r
    else if flag then
      if r.replacerSize + 1 > r.maxSize then none
      else
        let n2 := { node with isEvictable := true }
        some { r with replacerSize := r.replacerSize + 1,
                      nodeStore := storeSet fid n2 r.nodeStore,
                      evictableNode := storeSet fid n2 r.evictableNode }
    else
      let n2 := { node with isEvictable := false }
      some { r with replacerSize := r.replacerSize - 1,
                    nodeStore := storeSet fid n2 r.nodeStore,
                    evictableNode := eraseFid fid r.evictableNode }

/-- Remove (src/src/buffer/lru_k_replacer.cpp lines 125-140): no-op on an
unknown frame; throws on a known non-evictable frame; otherwise erases the
node from both maps and lowers both counters. -/
def LRUKReplacer.remove (r : LRUKReplacer) (fid : Nat) : Option LRUKReplacer :=
  match lookupFid fid r.nodeStore with
  | none => some r
  | some node =>
    if node.isEvictable then
      some { r with nodeStore := eraseFid fid r.nodeStore,
                    evictableNode := eraseFid fid r.evictableNode,
                    replacerSize := r.replacerSize - 1,
                    currSize := r.currSize - 1 }
    else none

/-- Size: the current evictable count. -/
def LRUKReplacer.size (r : LRUKReplacer) : Nat := r.replacerSize

/-- history_.back(): the oldest of the at most k retained timestamps; live
nodes always have a nonempty history (created with one entry by AddFrames
and only pushed afterwards), so the default is never reached from the
operations above. -/
def backTs (h : List Nat) : Nat := h.getLastD 0

/-- Comparator of both sorts in Evict: lhs.second > rhs.second as a weak
order (an element goes before another when the second component of the
latter is at most its own); Mathlib insertionSort with this relation is a
stable descending sort by the second component. -/
def geSnd (a b : Nat × Nat) : Prop := b.2 ≤ a.2

instance : DecidableRel geSnd := fun a b => Nat.decLe b.2 a.2

instance : IsTotal (Nat × Nat) geSnd := ⟨fun a b => le_total b.2 a.2⟩

instance : IsTrans (Nat × Nat) geSnd := ⟨fun _ _ _ h1 h2 => le_trans h2 h1⟩

/-- History length of a frame (node_store_[fid].history_.size(); all looked
up fids stem from node_store_ itself, the none default stands for the
default-inserted node of operator[]). -/
def LRUKReplacer.histLen (r : LRUKReplacer) (fid : Nat) : Nat :=
  match lookupFid fid r.nodeStore with
  | none => 0
  | some n => n.history.length

/-- Evictable flag of a frame (node_store_[fid].is_evictable_). -/
def LRUKReplacer.isEvictableFid (r : LRUKReplacer) (fid : Nat) : Bool :=
  match lookupFid fid r.nodeStore with
  | none => false
  | some n => n.isEvictable

/-- Oldest retained timestamp of a frame. -/
def LRUKReplacer.backOf (r : LRUKReplacer) (fid : Nat) : Nat :=
  match lookupFid fid r.nodeStore with
  | none => 0
  | some n => backTs n.history

/-- The candidate order Evict scans (src/src/buffer/lru_k_replacer.cpp
lines 28-42): pairs (frame, now - history_.back()) are sorted descending,
entries whose history has not reached k entries are overwritten with
SIZE_MAX, and the list is stably re-sorted descending.  std::sort leaves
the order of equal keys unspecified; the stable model fixes one such
order (ties arise only between equal oldest timestamps, where the proved
properties do not discriminate), and the iteration order of the
unordered_map is taken to be the association-list order. -/
def LRUKReplacer.evictOrder (r : LRUKReplacer) (now : Nat) : List (Nat × Nat) :=
  List.insertionSort geSnd
    ((List.insertionSort geSnd (r.nodeStore.map fun p => (p.1, now - backTs p.2.history))).map
      fun p => if r.histLen p.1 ≠ r.k then (p.1, SIZEMAX) else p)

/-- Evict (src/src/buffer/lru_k_replacer.cpp lines 21-66): the first
evictable frame of the candidate order is the victim; its node is erased
from both maps and both counters drop.  No evictable frame leaves the
state unchanged and reports failure. -/
def LRUKReplacer.evict (r : LRUKReplacer) (now : Nat) : Option (Nat × LRUKReplacer) :=
  match (r.evictOrder now).find? (fun p => r.isEvictableFid p.1) with
  | none => none
  | some p =>
    some (p.1, { r with nodeStore := eraseFid p.1 r.nodeStore,
                        evictableNode := eraseFid p.1 r.evictableNode,
                        replacerSize := r.replacerSize - 1,
                        currSize := r.currSize - 1 })

/-- Backward k-distance value of a frame as Evict ranks it: SIZE_MAX
(infinite) when fewer than k accesses are retained, otherwise the age of
the k-th most recent access. -/
def LRUKReplacer.kdVal (r : LRUKReplacer) (now fid : Nat) : Nat :=
  if r.histLen fid ≠ r.k then SIZEMAX else now - r.backOf fid

/-- Concrete replacer for the C3 witness, k 2: frame 0 evictable with a
full history (oldest access 1), frame 1 evictable with a single access
(infinite k-distance), frame 2 non-evictable. -/
def c3Replacer : LRUKReplacer :=
  ⟨[(0, ⟨[5, 1], true⟩), (1, ⟨[9], true⟩), (2, ⟨[3, 2], false⟩)],
   [(0, ⟨[5, 1], true⟩), (1, ⟨[9], true⟩)], 3, 2, 3, 2⟩

/-! ### Buffer pool manager (src/unnamed/part_000)

Every public operation holds the pool latch, so each is a pure state
transformer over the pool-and-replacer state.  Disk reads and writes go
through the scheduler and are awaited inside the operation; frame byte
contents are not modeled, so those waits leave no trace here.  The ghost
field accessLog records the frame id of every replacer_->RecordAccess call
the pool makes, in call order, to state access-counting claims.  An
exception escaping an operation is embedded as `none`. -/

/-- Frame metadata of one Page object: resident page id (-1 is
INVALID_PAGE_ID), pin count and dirty flag. -/
structure Page : Type where
  pageId : Int
  pinCount : Nat
  isDirty : Bool
deriving DecidableEq

/-- Page state after ResetFrame (also the freshly constructed state):
invalid page id, pin count 0, clean. -/
def Page.reset : Page := ⟨-1, 0, false⟩

/-- Pool state: the frame array, the replacer, page_table_, free_list_,
next_page_id_ and the ghost access log. -/
structure BPM : Type where
  poolSize : Nat
  pages : List Page
  replacer : LRUKReplacer
  pageTable : List (Int × Nat)
  freeList : List Nat
  nextPageId : Int
  accessLog : List Nat
deriving DecidableEq

/-- Lookup in the page table. -/
def ptLookup (pid : Int) : List (Int × Nat) → Option Nat
  | [] => none
  | p :: rest => if p.1 = pid then some p.2 else ptLookup pid rest

/-- Insert-or-assign in the page table. -/
def ptSet (pid : Int) (fid : Nat) : List (Int × Nat) → List (Int × Nat)
  | [] => [(pid, fid)]
  | p :: rest => if p.1 = pid then (pid, fid) :: rest else p :: ptSet pid fid rest

/-- Erase from the page table. -/
def ptErase (pid : Int) : List (Int × Nat) → List (Int × Nat)
  | [] => []
  | p :: rest => if p.1 = pid then rest else p :: ptErase pid rest

/-- The frame with the given id (pages_[fid]). -/
def pageAt (s : BPM) (fid : Nat) : Page := s.pages.getD fid Page.reset

/-- Overwrite one frame of the pool. -/
def setPage (s : BPM) (fid : Nat) (p : Page) : BPM := { s with pages := s.pages.set fid p }

/-- replacer_->RecordAccess(fid) as the pool calls it, with the ghost log
extended. -/
def recAcc (s : BPM) (fid : Nat) (now : Nat) : BPM :=
  { s with replacer := s.replacer.recordAccess fid now, accessLog := s.accessLog ++ [fid] }

/-- pages_[fid].pin_count_++ on the pool state. -/
def bumpPin (s : BPM) (fid : Nat) : BPM :=
  setPage s fid { pageAt s fid with pinCount := (pageAt s fid).pinCount + 1 }

/-- BufferPoolManager constructor for pool_size frames and parameter k:
all frames fresh and on the free list. -/
def BPM.init (poolSize rk : Nat) : BPM :=
  { poolSize := poolSize, pages := List.replicate poolSize Page.reset,
    replacer := LRUKReplacer.init poolSize rk, pageTable := [],
    freeList := List.range poolSize, nextPageId := 0, accessLog := [] }

/-- NewFrame (src/unnamed/part_000 lines 155-184): take the front of the
free list, or else evict a victim (writing it back through the scheduler
first when dirty, not modeled byte-wise) and drop its old page id from the
page table; then reset the frame, stamp the new page id and record a first
access in the replacer.  Failure to obtain a victim changes nothing. -/
def BPM.newFrame (s : BPM) (pid : Int) (now : Nat) : Option (Nat × BPM) :=
  match s.freeList with
  | fid :: rest =>
    let s1 := { s with freeList := rest }
    let s2 := setPage s1 fid { Page.reset with pageId := pid }
    some (fid, recAcc s2 fid now)
  | [] =>
    match s.replacer.evict now with
    | none => none
    | some (fid, rep) =>
      let s1 := { s with replacer := rep,
                         pageTable := ptErase (pageAt s fid).pageId s.pageTable }
      let s2 := setPage s1 fid { Page.reset with pageId := pid }
      some (fid, recAcc s2 fid now)

/-- NewPage (src/unnamed/part_000 lines 36-56): AllocatePage always runs
first (next_page_id_++); a failed NewFrame then returns null with the id
already burned.  Otherwise the frame is pinned, a second access is
recorded, the frame is marked non-evictable and installed in the page
table. -/
def BPM.newPage (s : BPM) (now : Nat) : Option (Option (Int × Nat) × BPM) :=
  let pid := s.nextPageId
  let s0 := { s with nextPageId := s.nextPageId + 1 }
  match s0.newFrame pid now with
  | none => some (none, s0)
  | some (fid, s1) =>
    let s2 := bumpPin s1 fid
    let s3 := recAcc s2 fid now
    match s3.replacer.setEvictable fid false with
    | none => none
    | some rep =>
      some (some (pid, fid), { s3 with replacer := rep, pageTable := ptSet pid fid s3.pageTable })

/-- FetchPage (src/unnamed/part_000 lines 58-82): a resident page is pinned
and one access is recorded; on a miss a frame comes from NewFrame, is
marked non-evictable, filled by an awaited disk read, installed in the
page table, pinned, and one more access is recorded.  Note the hit path
records the access but never calls SetEvictable. -/
def BPM.fetchPage (s : BPM) (pid : Int) (now : Nat) : Option (Option Nat × BPM) :=
  match ptLookup pid s.pageTable with
  | some fid => some (some fid, recAcc (bumpPin s fid) fid now)
  | none =>
    match s.newFrame pid now with
    | none => some (none, s)
    | some (fid, s1) =>
      match s1.replacer.setEvictable fid false with
      | none => none
      | some rep =>
        let s2 := { s1 with replacer := rep, pageTable := ptSet pid fid s1.pageTable }
        some (some fid, recAcc (bumpPin s2 fid) fid now)

/-- UnpinPage (src/unnamed/part_000 lines 84-100): false for a page that is
not resident or already unpinned; otherwise the pin count drops, the frame
becomes evictable when it reaches zero, and the frame dirty flag is
ASSIGNED the supplied is_dirty (pages_[frame_id].is_dirty_ = is_dirty), an
overwrite rather than the OR the spec describes. -/
def BPM.unpinPage (s : BPM) (pid : Int) (dirty : Bool) : Option (Bool × BPM) :=
  match ptLookup pid s.pageTable with
  | none => some (false, s)
  | some fid =>
    if (pageAt s fid).pinCount = 0 then some (false, s)
    else
      let s1 := setPage s fid { pageAt s fid with pinCount := (pageAt s fid).pinCount - 1 }
      if (pageAt s1 fid).pinCount = 0 then
        match s1.replacer.setEvictable fid true with
        | none => none
        | some rep =>
          let s2 := { s1 with replacer := rep }
          some (true, setPage s2 fid { pageAt s2 fid with isDirty := dirty })
      else some (true, setPage s1 fid { pageAt s1 fid with isDirty := dirty })

/-- FlushPage (src/unnamed/part_000 lines 102-120): false for the invalid
id or a non-resident page; otherwise the bytes are written through the
scheduler and awaited (not modeled) and the dirty flag cleared. -/
def BPM.flushPage (s : BPM) (pid : Int) : Option (Bool × BPM) :=
  if pid = -1 then some (false, s)
  else
    match ptLookup pid s.pageTable with
    | none => some (false, s)
    | some fid => some (true, setPage s fid { pageAt s fid with isDirty := false })

/-- Modelled from the spec: DeallocatePage is called by DeletePage but its
body is not among the source files; the spec states that page ids are
handed out by a monotonically increasing counter and never reused, so
deallocation changes neither the allocator counter nor any other pool
state. -/
def deallocatePage (s : BPM) (_pid : Int) : BPM := s

/-- DeletePage (src/unnamed/part_000 lines 128-151): vacuously true for a
non-resident page, false for a pinned one; otherwise the page leaves the
page table and the replacer, the frame returns to the free list and is
reset, and the id is released to the (no-op) deallocator. -/
def BPM.deletePage (s : BPM) (pid : Int) : Option (Bool × BPM) :=
  match ptLookup pid s.pageTable with
  | none => some (true, s)
  | some fid =>
    if (pageAt s fid).pinCount > 0 then some (false, s)
    else
      let s1 := { s with pageTable := ptErase pid s.pageTable }
      match s1.replacer.remove fid with
      | none => none
      | some rep =>
        let s2 := { s1 with replacer := rep, freeList := s1.freeList ++ [fid] }
        let s3 := setPage s2 fid Page.reset
        some (true, deallocatePage s3 pid)

/-- Pool operations for whole-trace statements. -/
inductive PoolOp : Type where
  | newPage (now : Nat)
  | fetchPage (pid : Int) (now : Nat)
  | unpinPage (pid : Int) (dirty : Bool)
  | flushPage (pid : Int)
  | deletePage (pid : Int)

/-- One pool operation as a step; the output is the page id handed out when
the operation is a successful NewPage, nothing otherwise. -/
def BPM.step (s : BPM) : PoolOp → Option (Option Int × BPM)
  | .newPage now =>
    match s.newPage now with
    | none => none
    | some (none, s2) => some (none, s2)
    | some (some (pid, _), s2) => some (some pid, s2)
  | .fetchPage pid now => (s.fetchPage pid now).map fun r => (none, r.2)
  | .unpinPage pid d => (s.unpinPage pid d).map fun r => (none, r.2)
  | .flushPage pid => (s.flushPage pid).map fun r => (none, r.2)
  | .deletePage pid => (s.deletePage pid).map fun r => (none, r.2)

/-- Page ids handed out by NewPage along a trace of operations (the trace
stops at an exception). -/
def BPM.run (s : BPM) : List PoolOp → List Int
  | [] => []
  | op :: ops =>
    match s.step op with
    | none => []
    | some (o, s2) => o.toList ++ BPM.run s2 ops

/-- Concrete C1 scenario, pool size 1 and k 2: NewPage pins page 0 in
frame 0, UnpinPage releases it (frame becomes evictable), FetchPage hits
the resident page and pins it again. -/
def c1State : Option BPM :=
  ((BPM.init 1 2).newPage 1).bind fun r1 =>
    ((r1.2).unpinPage 0 false).bind fun r2 =>
      ((r2.2).fetchPage 0 3).map fun r3 => r3.2

/-- Concrete C2 scenario, pool size 1 and k 2: NewPage pins page 0,
UnpinPage with is_dirty true marks the frame dirty, FetchPage re-pins it. -/
def c2Mid : Option BPM :=
  ((BPM.init 1 2).newPage 1).bind fun r1 =>
    ((r1.2).unpinPage 0 true).bind fun r2 =>
      ((r2.2).fetchPage 0 3).map fun r3 => r3.2

/-- The C2 scenario continued: UnpinPage of the dirty resident pinned page
with is_dirty false. -/
def c2End : Option BPM :=
  c2Mid.bind fun s => (s.unpinPage 0 false).map fun r => r.2

/-- Concrete pool for the C9 and C10 witnesses: one frame, k 2. -/
def c9Pool : BPM := BPM.init 1 2

/-- The pool after a successful NewPage (page 0 pinned in frame 0). -/
def c9NewState : BPM := ((c9Pool.newPage 1).getD (none, c9Pool)).2

/-- The pool after a FetchPage miss on page 7 from the fresh pool. -/
def c9MissState : BPM := ((c9Pool.fetchPage 7 1).getD (none, c9Pool)).2

/-- The pool after a FetchPage hit on the resident page 0. -/
def c9HitState : BPM := ((c9NewState.fetchPage 0 3).getD (none, c9Pool)).2

/-- The pool after a NewPage that fails to obtain a frame (the single frame
is pinned and non-evictable, the free list is empty). -/
def c10FailState : BPM := ((c9NewState.newPage 5).getD (none, c9Pool)).2

/-! ### Disk scheduler worker (src/unnamed/part_001)

The worker body handles one dequeued request: it calls
disk_manager_->WritePage or ReadPage according to r.is_write_ and then
resolves the promise by r.callback_.set_value(true).  There is no handler
around the gateway call in either revision of the file, so a throwing
gateway unwinds past set_value.  The gateway outcome is an explicit
parameter; the processing of one request is sequential code and is
embedded as a function on it. -/

/-- One disk request: direction and page id (buffer and promise identity
are not modeled). -/
structure DiskRequest : Type where
  isWrite : Bool
  pageId : Int
deriving DecidableEq

/-- Whether the synchronous gateway call returns or throws. -/
inductive GatewayOutcome : Type where
  | ok
  | err
deriving DecidableEq

/-- Fate of one request in the worker: the promise was resolved with the
given value, or an exception escaped the worker body with the promise
never resolved. -/
inductive WorkerResult : Type where
  | completed (resolution : Bool)
  | escaped
deriving DecidableEq

/-- Processing of one request by StartWorkerThread (src/unnamed/part_001
lines 58-63 and 114-120): when the gateway call (WritePage or ReadPage,
chosen by r.is_write_) returns, callback_.set_value(true) resolves the
promise exactly once with success; when the gateway throws, nothing
catches the exception, so it escapes and set_value never runs. -/
def processRequest (_r : DiskRequest) (g : GatewayOutcome) : WorkerResult :=
  match g with
  | .ok => .completed true
  | .err => .escaped

/-! ### Theorems -/

theorem lookupFid_eq_none_of_not_mem {fid : Nat} {l : List (Nat × LRUKNode)}
    (h : fid ∉ l.map Prod.fst) : lookupFid fid l = none := by
  induction l with
  | nil => rfl
  | cons p rest ih =>
    simp only [List.map_cons, List.mem_cons] at h
    push_neg at h
    simp only [lookupFid]
    rw [if_neg fun hp => h.1 hp.symm]
    exact ih h.2

theorem lookupFid_eraseFid_self {fid : Nat} {l : List (Nat × LRUKNode)}
    (h : (l.map Prod.fst).Nodup) : lookupFid fid (eraseFid fid l) = none := by
  induction l with
  | nil => rfl
  | cons p rest ih =>
    simp only [List.map_cons, List.nodup_cons] at h
    by_cases hp : p.1 = fid
    · simp only [eraseFid, if_pos hp]
      exact lookupFid_eq_none_of_not_mem (hp ▸ h.1)
    · simp only [eraseFid, if_neg hp, lookupFid]
      exact ih h.2

theorem lookupFid_of_mem_nodup {l : List (Nat × LRUKNode)} {p : Nat × LRUKNode}
    (hn : (l.map Prod.fst).Nodup) (hm : p ∈ l) : lookupFid p.1 l = some p.2 := by
  induction l with
  | nil => cases hm
  | cons q rest ih =>
    simp only [List.map_cons, List.nodup_cons] at hn
    rcases List.mem_cons.mp hm with h | h
    · subst h
      simp [lookupFid]
    · have hne : q.1 ≠ p.1 := by
        intro he
        exact hn.1 (he ▸ List.mem_map_of_mem Prod.fst h)
      simp only [lookupFid]
      rw [if_neg hne]
      exact ih hn.2 h

/-- C1: the invariant that every frame with positive pin count is reported
non-evictable by the replacer fails on the code.  Failing input: pool size
1, k 2; NewPage pins page 0 in frame 0, UnpinPage drops the pin to 0 and
marks the frame evictable, then a FetchPage hit on the resident page 0
raises the pin count back to 1 — but the hit path of FetchPage never calls
SetEvictable(frame, false), so the replacer still reports frame 0
evictable while its pin count is 1. -/
theorem bpm_fetch_hit_leaves_pinned_frame_evictable :
    c1State.map (fun s => ((pageAt s 0).pinCount, s.replacer.isEvictableFid 0))
      = some (1, true) := by decide

/-- C2: the claim that UnpinPage ORs the supplied is_dirty into the frame
dirty flag fails on the code, which assigns it.  Failing input: pool size
1, k 2; after NewPage, UnpinPage(0, true) (frame dirty), FetchPage hit
(pin 1), the page is resident, pinned and dirty — and UnpinPage(0, false)
resets the dirty flag to false instead of keeping it true. -/
theorem bpm_unpin_overwrites_dirty_flag :
    c2Mid.map (fun s => ((pageAt s 0).pinCount, (pageAt s 0).isDirty)) = some (1, true)
      ∧ c2End.map (fun s => (pageAt s 0).isDirty) = some false := by decide

/-- C4: the put/get claim fails on the code at the empty trie with the
empty key: Trie::Put runs root_->Clone() before any null check, so
put of the empty key into the empty trie dereferences a null root instead
of producing the trie with root value 5 that the spec scenario demands.
For contrast, the same empty-key put on any trie whose root exists does
store and return the value. -/
theorem trie_put_empty_key_on_empty_trie_crashes :
    Trie.put emptyTrie [] 0 5 = none
      ∧ ((Trie.put emptyTrie [Char.ofNat 97] 0 7).bind fun t =>
          (Trie.put t [] 0 5).map fun t2 => t2.get [] 0) = some (some 5) := ⟨rfl, rfl⟩

/-- C5: the remove claim fails on the code at the empty trie: Trie::Remove
runs this->root_->Clone() before looking at the key, so removing any key
(present or absent, empty or not) from the empty trie dereferences a null
root instead of returning a trie equal to the receiver. -/
theorem trie_remove_on_empty_trie_crashes :
    Trie.remove emptyTrie [Char.ofNat 97] = none
      ∧ Trie.remove emptyTrie [] = none := ⟨rfl, rfl⟩

/-- C6 counterexample: at the concrete request (write, page 0) with a
failing gateway, the worker body does not resolve the promise with failure
— the exception escapes the worker and set_value never runs, refuting the
claim that the promise always resolves and that gateway errors propagate
through it. -/
theorem disk_worker_gateway_failure_escapes :
    processRequest ⟨true, 0⟩ GatewayOutcome.err = WorkerResult.escaped
      ∧ processRequest ⟨true, 0⟩ GatewayOutcome.err ≠ WorkerResult.completed false := by
  decide

/-- C6 amended: for every request, when the gateway call returns the
promise is resolved exactly once, with success (true); when the gateway
throws, the exception escapes the worker body out-of-band and the promise
is never resolved. -/
theorem disk_worker_promise_resolution (r : DiskRequest) :
    processRequest r GatewayOutcome.ok = WorkerResult.completed true
      ∧ processRequest r GatewayOutcome.err = WorkerResult.escaped := ⟨rfl, rfl⟩

/-- C7: the structural invariant claim fails on the code.  Failing input:
the trie built by put(ab, 2) then put(empty key, 5) — a valued root whose
single chain a, b ends in the value 2 — satisfies the invariant; after
remove(ab) the childless terminal b is erased from its parent a, which
thereby becomes a childless valueless interior node, but since the only
valued single-child ancestor is the root itself (tmp_leaf == new_root) the
upward deletion is skipped and the dead node a stays attached. -/
theorem trie_remove_leaves_dead_interior_node :
    c7Before = some true ∧ c7After = some false := by decide

theorem newFrame_effects {s : BPM} {pid : Int} {now : Nat} {fid : Nat} {s1 : BPM}
    (h : s.newFrame pid now = some (fid, s1)) :
    s1.accessLog = s.accessLog ++ [fid] ∧ s1.nextPageId = s.nextPageId := by
  unfold BPM.newFrame at h
  cases hf : s.freeList with
  | cons f rest =>
    rw [hf] at h
    simp only [Option.some.injEq, Prod.mk.injEq] at h
    obtain ⟨h1, h2⟩ := h
    subst h1
    subst h2
    constructor <;> simp [recAcc, setPage]
  | nil =>
    rw [hf] at h
    cases he : s.replacer.evict now with
    | none =>
      rw [he] at h
      cases h
    | some pr =>
      obtain ⟨f, rep⟩ := pr
      rw [he] at h
      simp only [Option.some.injEq, Prod.mk.injEq] at h
      obtain ⟨h1, h2⟩ := h
      subst h1
      subst h2
      constructor <;> simp [recAcc, setPage]

theorem newPage_cases {s : BPM} {now : Nat} {o : Option (Int × Nat)} {s2 : BPM}
    (h : s.newPage now = some (o, s2)) :
    s2.nextPageId = s.nextPageId + 1
    ∧ (o = none → s2 = { s with nextPageId := s.nextPageId + 1 })
    ∧ (∀ pid fid, o = some (pid, fid) →
        pid = s.nextPageId ∧ s2.accessLog = s.accessLog ++ [fid, fid]) := by
  unfold BPM.newPage at h
  dsimp only at h
  cases hnf : BPM.newFrame { s with nextPageId := s.nextPageId + 1 } s.nextPageId now with
  | none =>
    rw [hnf] at h
    simp only [Option.some.injEq, Prod.mk.injEq] at h
    obtain ⟨h1, h2⟩ := h
    subst h1
    subst h2
    exact ⟨rfl, fun _ => rfl, fun pid fid hc => by cases hc⟩
  | some pr =>
    obtain ⟨f, s1⟩ := pr
    rw [hnf] at h
    dsimp only at h
    cases hse : ((recAcc (bumpPin s1 f) f now).replacer).setEvictable f false with
    | none =>
      rw [hse] at h
      cases h
    | some rep =>
      rw [hse] at h
      simp only [Option.some.injEq, Prod.mk.injEq] at h
      obtain ⟨h1, h2⟩ := h
      subst h1
      subst h2
      have hnf2 := newFrame_effects hnf
      refine ⟨?_, ?_, ?_⟩
      · simpa using hnf2.2
      · intro hc
        cases hc
      · intro pid2 fid2 hc
        simp only [Option.some.injEq, Prod.mk.injEq] at hc
        obtain ⟨hc1, hc2⟩ := hc
        subst hc1
        subst hc2
        refine ⟨rfl, ?_⟩
        simp only [recAcc, bumpPin, setPage]
        rw [hnf2.1]
        simp

theorem fetchPage_cases {s : BPM} {pid : Int} {now : Nat} {o : Option Nat} {s2 : BPM}
    (h : s.fetchPage pid now = some (o, s2)) :
    s2.nextPageId = s.nextPageId
    ∧ (∀ fid, ptLookup pid s.pageTable = some fid →
        o = some fid ∧ s2.accessLog = s.accessLog ++ [fid])
    ∧ (ptLookup pid s.pageTable = none → ∀ fid, o = some fid →
        s2.accessLog = s.accessLog ++ [fid, fid]) := by
  unfold BPM.fetchPage at h
  cases hl : ptLookup pid s.pageTable with
  | some f =>
    rw [hl] at h
    simp only [Option.some.injEq, Prod.mk.injEq] at h
    obtain ⟨h1, h2⟩ := h
    subst h1
    subst h2
    refine ⟨?_, ?_, ?_⟩
    · simp [recAcc, bumpPin, setPage]
    · intro fid hf
      obtain rfl : f = fid := Option.some.inj hf
      exact ⟨rfl, by simp [recAcc, bumpPin, setPage]⟩
    · intro hn
      cases hn
  | none =>
    rw [hl] at h
    cases hnf : BPM.newFrame s pid now with
    | none =>
      rw [hnf] at h
      simp only [Option.some.injEq, Prod.mk.injEq] at h
      obtain ⟨h1, h2⟩ := h
      subst h1
      subst h2
      refine ⟨rfl, ?_, ?_⟩
      · intro fid hf
        cases hf
      · intro _ fid hc
        cases hc
    | some pr =>
      obtain ⟨f, s1⟩ := pr
      rw [hnf] at h
      dsimp only at h
      cases hse : (s1.replacer).setEvictable f false with
      | none =>
        rw [hse] at h
        cases h
      | some rep =>
        rw [hse] at h
        simp only [Option.some.injEq, Prod.mk.injEq] at h
        obtain ⟨h1, h2⟩ := h
        subst h1
        subst h2
        have hnf2 := newFrame_effects hnf
        refine ⟨?_, ?_, ?_⟩
        · simpa [recAcc, bumpPin, setPage] using hnf2.2
        · intro fid hf
          cases hf
        · intro _ fid hc
          obtain rfl : f = fid := Option.some.inj hc
          simp only [recAcc, bumpPin, setPage]
          rw [hnf2.1]
          simp

theorem unpinPage_nextPageId {s : BPM} {pid : Int} {d : Bool} {o : Bool} {s2 : BPM}
    (h : s.unpinPage pid d = some (o, s2)) : s2.nextPageId = s.nextPageId := by
  unfold BPM.unpinPage at h
  cases hl : ptLookup pid s.pageTable with
  | none =>
    rw [hl] at h
    simp only [Option.some.injEq, Prod.mk.injEq] at h
    rw [← h.2]
  | some f =>
    rw [hl] at h
    dsimp only at h
    split at h
    · simp only [Option.some.injEq, Prod.mk.injEq] at h
      rw [← h.2]
    · split at h
      · split at h
        · cases h
        · simp only [Option.some.injEq, Prod.mk.injEq] at h
          rw [← h.2]
          simp [setPage]
      · simp only [Option.some.injEq, Prod.mk.injEq] at h
        rw [← h.2]
        simp [setPage]

theorem flushPage_nextPageId {s : BPM} {pid : Int} {o : Bool} {s2 : BPM}
    (h : s.flushPage pid = some (o, s2)) : s2.nextPageId = s.nextPageId := by
  unfold BPM.flushPage at h
  split at h
  · simp only [Option.some.injEq, Prod.mk.injEq] at h
    rw [← h.2]
  · cases hl : ptLookup pid s.pageTable with
    | none =>
      rw [hl] at h
      simp only [Option.some.injEq, Prod.mk.injEq] at h
      rw [← h.2]
    | some f =>
      rw [hl] at h
      simp only [Option.some.injEq, Prod.mk.injEq] at h
      rw [← h.2]
      simp [setPage]

theorem deletePage_nextPageId {s : BPM} {pid : Int} {o : Bool} {s2 : BPM}
    (h : s.deletePage pid = some (o, s2)) : s2.nextPageId = s.nextPageId := by
  unfold BPM.deletePage at h
  cases hl : ptLookup pid s.pageTable with
  | none =>
    rw [hl] at h
    simp only [Option.some.injEq, Prod.mk.injEq] at h
    rw [← h.2]
  | some f =>
    rw [hl] at h
    dsimp only at h
    split at h
    · simp only [Option.some.injEq, Prod.mk.injEq] at h
      rw [← h.2]
    · split at h
      · cases h
      · simp only [Option.some.injEq, Prod.mk.injEq] at h
        rw [← h.2]
        simp [deallocatePage, setPage]

theorem step_nextPageId {s : BPM} {op : PoolOp} {o : Option Int} {s2 : BPM}
    (h : s.step op = some (o, s2)) :
    s.nextPageId ≤ s2.nextPageId
    ∧ ∀ pid, o = some pid → pid = s.nextPageId ∧ s2.nextPageId = s.nextPageId + 1 := by
  cases op with
  | newPage now =>
    simp only [BPM.step] at h
    cases hn : s.newPage now with
    | none =>
      rw [hn] at h
      cases h
    | some pr =>
      obtain ⟨po, sp⟩ := pr
      rw [hn] at h
      have hc := newPage_cases hn
      cases po with
      | none =>
        simp only [Option.some.injEq, Prod.mk.injEq] at h
        obtain ⟨h1, h2⟩ := h
        subst h1
        subst h2
        exact ⟨by omega, fun pid hp => by cases hp⟩
      | some pf =>
        obtain ⟨pid0, fid0⟩ := pf
        simp only [Option.some.injEq, Prod.mk.injEq] at h
        obtain ⟨h1, h2⟩ := h
        subst h1
        subst h2
        constructor
        · omega
        · intro pidX hp
          have hpe := Option.some.inj hp
          subst hpe
          exact ⟨(hc.2.2 _ fid0 rfl).1, hc.1⟩
  | fetchPage pid now =>
    simp only [BPM.step] at h
    cases hn : s.fetchPage pid now with
    | none => rw [hn] at h; cases h
    | some pr =>
      rw [hn] at h
      simp only [Option.map, Option.some.injEq, Prod.mk.injEq] at h
      obtain ⟨h1, h2⟩ := h
      subst h1
      subst h2
      exact ⟨le_of_eq (fetchPage_cases hn).1.symm, fun p hp => by cases hp⟩
  | unpinPage pid d =>
    simp only [BPM.step] at h
    cases hn : s.unpinPage pid d with
    | none => rw [hn] at h; cases h
    | some pr =>
      rw [hn] at h
      simp only [Option.map, Option.some.injEq, Prod.mk.injEq] at h
      obtain ⟨h1, h2⟩ := h
      subst h1
      subst h2
      exact ⟨le_of_eq (unpinPage_nextPageId hn).symm, fun p hp => by cases hp⟩
  | flushPage pid =>
    simp only [BPM.step] at h
    cases hn : s.flushPage pid with
    | none => rw [hn] at h; cases h
    | some pr =>
      rw [hn] at h
      simp only [Option.map, Option.some.injEq, Prod.mk.injEq] at h
      obtain ⟨h1, h2⟩ := h
      subst h1
      subst h2
      exact ⟨le_of_eq (flushPage_nextPageId hn).symm, fun p hp => by cases hp⟩
  | deletePage pid =>
    simp only [BPM.step] at h
    cases hn : s.deletePage pid with
    | none => rw [hn] at h; cases h
    | some pr =>
      rw [hn] at h
      simp only [Option.map, Option.some.injEq, Prod.mk.injEq] at h
      obtain ⟨h1, h2⟩ := h
      subst h1
      subst h2
      exact ⟨le_of_eq (deletePage_nextPageId hn).symm, fun p hp => by cases hp⟩

theorem run_lower_bound (ops : List PoolOp) :
    ∀ s : BPM, ∀ b : Int, b < s.nextPageId → ∀ pid ∈ s.run ops, b < pid := by
  induction ops with
  | nil => intro s b _ pid hm; cases hm
  | cons op rest ih =>
    intro s b hb pid hm
    unfold BPM.run at hm
    cases hs : s.step op with
    | none =>
      rw [hs] at hm
      cases hm
    | some pr =>
      obtain ⟨o, s2⟩ := pr
      rw [hs] at hm
      have hst := step_nextPageId hs
      rcases List.mem_append.mp hm with hm | hm
      · cases o with
        | none => cases hm
        | some pid2 =>
          have hpe : pid = pid2 := by simpa [Option.toList] using hm
          have := (hst.2 pid2 rfl).1
          omega
      · exact ih s2 b (by omega) pid hm

theorem orderedInsert_of_forall_ge {x : Nat × Nat} {l : List (Nat × Nat)}
    (hx : ∀ y ∈ l, y.2 ≤ x.2) : List.orderedInsert geSnd x l = x :: l := by
  cases l with
  | nil => rfl
  | cons y l =>
    simp only [List.orderedInsert]
    rw [if_pos (show geSnd x y from hx y (List.mem_cons_self y l))]

theorem filter_orderedInsert_ne (l : List (Nat × Nat)) {x : Nat × Nat}
    (hx : x.2 ≠ SIZEMAX) :
    (List.orderedInsert geSnd x l).filter (fun p => p.2 == SIZEMAX)
      = l.filter (fun p => p.2 == SIZEMAX) := by
  induction l with
  | nil => simp [hx]
  | cons y l ih =>
    simp only [List.orderedInsert]
    by_cases hins : geSnd x y
    · rw [if_pos hins]
      simp only [List.filter_cons]
      rw [if_neg (by simp [hx])]
    · rw [if_neg hins]
      simp only [List.filter_cons, ih]

theorem filter_insertionSort_max {l : List (Nat × Nat)}
    (hl : ∀ y ∈ l, y.2 ≤ SIZEMAX) :
    (List.insertionSort geSnd l).filter (fun p => p.2 == SIZEMAX)
      = l.filter (fun p => p.2 == SIZEMAX) := by
  induction l with
  | nil => rfl
  | cons x l ih =>
    have hl2 : ∀ y ∈ l, y.2 ≤ SIZEMAX := fun y hy => hl y (List.mem_cons_of_mem x hy)
    have hsub : ∀ y ∈ List.insertionSort geSnd l, y.2 ≤ SIZEMAX := fun y hy =>
      hl2 y ((List.perm_insertionSort geSnd l).subset hy)
    simp only [List.insertionSort]
    by_cases hx : x.2 = SIZEMAX
    · rw [orderedInsert_of_forall_ge fun y hy => by rw [hx]; exact hsub y hy]
      simp only [List.filter_cons]
      rw [if_pos (by simp [hx]), if_pos (by simp [hx]), ih hl2]
    · rw [filter_orderedInsert_ne _ hx, ih hl2]
      simp only [List.filter_cons]
      rw [if_neg (by simp [hx])]

theorem find?_split {α : Type} {p : α → Bool} {l : List α} {x : α}
    (h : l.find? p = some x) :
    ∃ l1 l2, l = l1 ++ x :: l2 ∧ ∀ y ∈ l1, p y = false := by
  induction l with
  | nil => cases h
  | cons a l ih =>
    by_cases hpa : p a = true
    · rw [List.find?_cons_of_pos _ hpa] at h
      obtain rfl : a = x := Option.some.inj h
      exact ⟨[], l, rfl, by intro y hy; cases hy⟩
    · rw [List.find?_cons_of_neg _ (by simpa using hpa)] at h
      obtain ⟨l1, l2, he, hf⟩ := ih h
      refine ⟨a :: l1, l2, by simp [he], ?_⟩
      intro y hy
      rcases List.mem_cons.mp hy with rfl | hy
      · simpa using hpa
      · exact hf y hy

theorem s1_elem_shape {r : LRUKReplacer} {now : Nat}
    (hnodup : (r.nodeStore.map Prod.fst).Nodup) {q : Nat × Nat}
    (hq : q ∈ List.insertionSort geSnd
      (r.nodeStore.map fun p => (p.1, now - backTs p.2.history))) :
    ∃ p ∈ r.nodeStore, p.1 = q.1 ∧ lookupFid q.1 r.nodeStore = some p.2
      ∧ q.2 = now - backTs p.2.history := by
  have hq2 := (List.perm_insertionSort geSnd _).subset hq
  obtain ⟨p, hp, he⟩ := List.mem_map.mp hq2
  have h1 : p.1 = q.1 := congrArg Prod.fst he
  refine ⟨p, hp, h1, ?_, (congrArg Prod.snd he).symm⟩
  rw [← h1]
  exact lookupFid_of_mem_nodup hnodup hp

theorem evictOrder_elem_shape {r : LRUKReplacer} {now : Nat}
    (hnodup : (r.nodeStore.map Prod.fst).Nodup) {q : Nat × Nat}
    (hq : q ∈ r.evictOrder now) :
    q = (q.1, r.kdVal now q.1) ∧ ∃ n, lookupFid q.1 r.nodeStore = some n := by
  unfold LRUKReplacer.evictOrder at hq
  have hq2 := (List.perm_insertionSort geSnd _).subset hq
  obtain ⟨q1, hq1, he⟩ := List.mem_map.mp hq2
  obtain ⟨p, hp, h1, hlk, h2⟩ := s1_elem_shape hnodup hq1
  by_cases hk : r.histLen q1.1 ≠ r.k
  · rw [if_pos hk] at he
    subst he
    refine ⟨?_, ⟨p.2, hlk⟩⟩
    dsimp only
    simp only [LRUKReplacer.kdVal]
    rw [if_pos hk]
  · rw [if_neg hk] at he
    subst he
    constructor
    · have hback : r.backOf q1.1 = backTs p.2.history := by
        unfold LRUKReplacer.backOf
        rw [hlk]
      simp only [LRUKReplacer.kdVal]
      rw [if_neg hk, hback, ← h2]
    · exact ⟨p.2, hlk⟩

theorem store_mem_evictOrder {r : LRUKReplacer} {now : Nat}
    (hnodup : (r.nodeStore.map Prod.fst).Nodup) {p : Nat × LRUKNode}
    (hp : p ∈ r.nodeStore) :
    (p.1, r.kdVal now p.1) ∈ r.evictOrder now := by
  have hlk := lookupFid_of_mem_nodup hnodup hp
  unfold LRUKReplacer.evictOrder
  refine (List.perm_insertionSort geSnd _).mem_iff.mpr (List.mem_map.mpr ?_)
  refine ⟨(p.1, now - backTs p.2.history), ?_, ?_⟩
  · exact (List.perm_insertionSort geSnd _).mem_iff.mpr (List.mem_map.mpr ⟨p, hp, rfl⟩)
  · have hback : r.backOf p.1 = backTs p.2.history := by
      unfold LRUKReplacer.backOf
      rw [hlk]
    simp only [LRUKReplacer.kdVal]
    by_cases hk : r.histLen p.1 ≠ r.k
    · rw [if_pos hk, if_pos hk]
    · rw [if_neg hk, if_neg hk, hback]

theorem v2_le_max {r : LRUKReplacer} {now : Nat} (hnow : now < SIZEMAX) :
    ∀ q ∈ (List.insertionSort geSnd
        (r.nodeStore.map fun p => (p.1, now - backTs p.2.history))).map
        (fun p => if r.histLen p.1 ≠ r.k then (p.1, SIZEMAX) else p),
      q.2 ≤ SIZEMAX := by
  intro q hq
  obtain ⟨q1, hq1, he⟩ := List.mem_map.mp hq
  subst he
  by_cases hk : r.histLen q1.1 ≠ r.k
  · rw [if_pos hk]
  · rw [if_neg hk]
    have hq2 := (List.perm_insertionSort geSnd _).subset hq1
    obtain ⟨p, hp, he2⟩ := List.mem_map.mp hq2
    have h2 : q1.2 = now - backTs p.2.history := (congrArg Prod.snd he2).symm
    rw [h2]
    omega

theorem evictOrder_max_filter_pairwise (r : LRUKReplacer) (now : Nat)
    (hnodup : (r.nodeStore.map Prod.fst).Nodup)
    (hts : ∀ p ∈ r.nodeStore, backTs p.2.history ≤ now) (hnow : now < SIZEMAX) :
    List.Pairwise (fun a b : Nat × Nat => r.backOf a.1 ≤ r.backOf b.1)
      ((r.evictOrder now).filter fun p => p.2 == SIZEMAX) := by
  unfold LRUKReplacer.evictOrder
  rw [filter_insertionSort_max (v2_le_max hnow)]
  apply List.Pairwise.sublist (List.filter_sublist _)
  rw [List.pairwise_map]
  have hs1 := List.sorted_insertionSort geSnd
    (r.nodeStore.map fun p => (p.1, now - backTs p.2.history))
  refine hs1.imp_of_mem ?_
  intro a b ha hb hab
  obtain ⟨pa, hpa, ha1, hlka, ha2⟩ := s1_elem_shape hnodup ha
  obtain ⟨pb, hpb, hb1, hlkb, hb2⟩ := s1_elem_shape hnodup hb
  have hba : r.backOf a.1 = backTs pa.2.history := by
    unfold LRUKReplacer.backOf
    rw [hlka]
  have hbb : r.backOf b.1 = backTs pb.2.history := by
    unfold LRUKReplacer.backOf
    rw [hlkb]
  have hfa : (if r.histLen a.1 ≠ r.k then (a.1, SIZEMAX) else a).1 = a.1 := by
    by_cases hk : r.histLen a.1 ≠ r.k
    · rw [if_pos hk]
    · rw [if_neg hk]
  have hfb : (if r.histLen b.1 ≠ r.k then (b.1, SIZEMAX) else b).1 = b.1 := by
    by_cases hk : r.histLen b.1 ≠ r.k
    · rw [if_pos hk]
    · rw [if_neg hk]
  rw [hfa, hfb, hba, hbb]
  have hta := hts pa hpa
  have htb := hts pb hpb
  have hab2 : b.2 ≤ a.2 := hab
  rw [ha2, hb2] at hab2
  omega

theorem evictOrder_sorted (r : LRUKReplacer) (now : Nat) :
    List.Sorted geSnd (r.evictOrder now) := by
  unfold LRUKReplacer.evictOrder
  exact List.sorted_insertionSort geSnd _

/-- C3: the Evict contract.  In any replacer state with well-formed node
store (unique keys, recorded timestamps at most the current one, which is
below SIZE_MAX) holding at least one evictable frame, Evict returns a
victim that is evictable, whose k-distance value (SIZE_MAX for fewer than
k retained accesses, infinite beats finite) is maximal among the evictable
frames; among evictable frames of infinite k-distance the victim has the
least oldest-recorded access; and the victim node is removed outright,
with both counters dropping by one. -/
theorem lruk_evict_policy (r : LRUKReplacer) (now : Nat)
    (hnodup : (r.nodeStore.map Prod.fst).Nodup)
    (hts : ∀ p ∈ r.nodeStore, backTs p.2.history ≤ now)
    (hnow : now < SIZEMAX)
    (hev : ∃ p ∈ r.nodeStore, p.2.isEvictable = true) :
    ∃ fid r2, r.evict now = some (fid, r2)
      ∧ r.isEvictableFid fid = true
      ∧ (∀ p ∈ r.nodeStore, p.2.isEvictable = true → r.kdVal now p.1 ≤ r.kdVal now fid)
      ∧ (r.kdVal now fid = SIZEMAX →
          ∀ p ∈ r.nodeStore, p.2.isEvictable = true → r.kdVal now p.1 = SIZEMAX →
            r.backOf fid ≤ r.backOf p.1)
      ∧ r2.nodeStore = eraseFid fid r.nodeStore
      ∧ lookupFid fid r2.nodeStore = none
      ∧ r2.replacerSize = r.replacerSize - 1
      ∧ r2.currSize = r.currSize - 1 := by
  obtain ⟨pe, hpe, hpev⟩ := hev
  have hpeEv : r.isEvictableFid pe.1 = true := by
    unfold LRUKReplacer.isEvictableFid
    rw [lookupFid_of_mem_nodup hnodup hpe]
    exact hpev
  have hpeMem : ((pe.1, r.kdVal now pe.1) : Nat × Nat) ∈ r.evictOrder now :=
    store_mem_evictOrder hnodup hpe
  cases hfind : (r.evictOrder now).find? (fun p => r.isEvictableFid p.1) with
  | none =>
    exact absurd hpeEv (by simpa using List.find?_eq_none.mp hfind _ hpeMem)
  | some p0 =>
    have hp0mem := List.mem_of_find?_eq_some hfind
    have hp0ev : r.isEvictableFid p0.1 = true := by simpa using List.find?_some hfind
    obtain ⟨hp0shape, n0, hlk0⟩ := evictOrder_elem_shape hnodup hp0mem
    have hp0snd : p0.2 = r.kdVal now p0.1 := congrArg Prod.snd hp0shape
    obtain ⟨l1, l2, hsplit, hl1⟩ := find?_split hfind
    have hmax : ∀ q ∈ r.nodeStore, q.2.isEvictable = true →
        r.kdVal now q.1 ≤ r.kdVal now p0.1 := by
      intro q hq hqe
      have hqmem := @store_mem_evictOrder r now hnodup q hq
      have hqev : r.isEvictableFid q.1 = true := by
        unfold LRUKReplacer.isEvictableFid
        rw [lookupFid_of_mem_nodup hnodup hq]
        exact hqe
      rw [hsplit] at hqmem
      rcases List.mem_append.mp hqmem with hin | hin
      · exact absurd hqev (by simpa using hl1 _ hin)
      · rcases List.mem_cons.mp hin with heq | hin2
        · have he2 : r.kdVal now q.1 = p0.2 := congrArg Prod.snd heq
          rw [he2, hp0snd]
        · have hsorted := evictOrder_sorted r now
          rw [hsplit] at hsorted
          have hpair := (List.pairwise_append.mp hsorted).2.1
          have hrel := (List.pairwise_cons.mp hpair).1 _ hin2
          calc r.kdVal now q.1 ≤ p0.2 := hrel
            _ = r.kdVal now p0.1 := hp0snd
    have htie : r.kdVal now p0.1 = SIZEMAX →
        ∀ q ∈ r.nodeStore, q.2.isEvictable = true → r.kdVal now q.1 = SIZEMAX →
          r.backOf p0.1 ≤ r.backOf q.1 := by
      intro hm q hq hqe hqm
      have hqmem := @store_mem_evictOrder r now hnodup q hq
      have hqev : r.isEvictableFid q.1 = true := by
        unfold LRUKReplacer.isEvictableFid
        rw [lookupFid_of_mem_nodup hnodup hq]
        exact hqe
      rw [hsplit] at hqmem
      rcases List.mem_append.mp hqmem with hin | hin
      · exact absurd hqev (by simpa using hl1 _ hin)
      · rcases List.mem_cons.mp hin with heq | hin2
        · have hq1 : q.1 = p0.1 := congrArg Prod.fst heq
          rw [hq1]
        · have hpw := evictOrder_max_filter_pairwise r now hnodup hts hnow
          rw [hsplit] at hpw
          have hp0max : (p0.2 == SIZEMAX) = true := by
            rw [hp0snd, hm]
            simp
          rw [List.filter_append, List.filter_cons, if_pos hp0max] at hpw
          have hsubpw := (List.pairwise_append.mp hpw).2.1
          have hmemf : ((q.1, r.kdVal now q.1) : Nat × Nat)
              ∈ l2.filter (fun p => p.2 == SIZEMAX) :=
            List.mem_filter.mpr ⟨hin2, by simp [hqm]⟩
          exact (List.pairwise_cons.mp hsubpw).1 _ hmemf
    refine ⟨p0.1, { r with nodeStore := eraseFid p0.1 r.nodeStore,
                           evictableNode := eraseFid p0.1 r.evictableNode,
                           replacerSize := r.replacerSize - 1,
                           currSize := r.currSize - 1 }, ?_, hp0ev, hmax, htie, rfl,
      lookupFid_eraseFid_self hnodup, rfl, rfl⟩
    unfold LRUKReplacer.evict
    rw [hfind]

/-- C3 witness: the Evict contract applied to the concrete replacer at
timestamp 10; the hypotheses are discharged by computation. -/
theorem lruk_evict_policy_witness :
    (c3Replacer.nodeStore.map Prod.fst).Nodup
    ∧ (∀ p ∈ c3Replacer.nodeStore, backTs p.2.history ≤ 10)
    ∧ 10 < SIZEMAX
    ∧ (∃ p ∈ c3Replacer.nodeStore, p.2.isEvictable = true)
    ∧ (∃ fid r2, c3Replacer.evict 10 = some (fid, r2)
      ∧ c3Replacer.isEvictableFid fid = true
      ∧ (∀ p ∈ c3Replacer.nodeStore, p.2.isEvictable = true →
          c3Replacer.kdVal 10 p.1 ≤ c3Replacer.kdVal 10 fid)
      ∧ (c3Replacer.kdVal 10 fid = SIZEMAX →
          ∀ p ∈ c3Replacer.nodeStore, p.2.isEvictable = true →
            c3Replacer.kdVal 10 p.1 = SIZEMAX →
            c3Replacer.backOf fid ≤ c3Replacer.backOf p.1)
      ∧ r2.nodeStore = eraseFid fid c3Replacer.nodeStore
      ∧ lookupFid fid r2.nodeStore = none
      ∧ r2.replacerSize = c3Replacer.replacerSize - 1
      ∧ r2.currSize = c3Replacer.currSize - 1) :=
  ⟨by decide, by decide, by decide, by decide,
   lruk_evict_policy c3Replacer 10 (by decide) (by decide) (by decide) (by decide)⟩

/-- C8: the Remove contract of the replacer.  Removing an unknown frame is
a no-op; removing a known non-evictable frame throws (fails fast);
removing a known evictable frame deletes its node outright — the frame no
longer resolves in the node store, which is the erased store — and the
count returned by Size drops by exactly one. -/
theorem lruk_remove_contract (r : LRUKReplacer) (fid : Nat) :
    (lookupFid fid r.nodeStore = none → r.remove fid = some r)
    ∧ (∀ node, lookupFid fid r.nodeStore = some node → node.isEvictable = false →
        r.remove fid = none)
    ∧ (∀ node, lookupFid fid r.nodeStore = some node → node.isEvictable = true →
        (r.nodeStore.map Prod.fst).Nodup → 1 ≤ r.size →
        ∃ r2, r.remove fid = some r2
          ∧ r2.nodeStore = eraseFid fid r.nodeStore
          ∧ lookupFid fid r2.nodeStore = none
          ∧ r2.size + 1 = r.size) := by
  refine ⟨?_, ?_, ?_⟩
  · intro h
    unfold LRUKReplacer.remove
    rw [h]
  · intro node h hne
    unfold LRUKReplacer.remove
    rw [h]
    simp [hne]
  · intro node h hev hn hs
    unfold LRUKReplacer.remove
    rw [h]
    simp only [hev, if_true]
    refine ⟨_, rfl, rfl, lookupFid_eraseFid_self hn, ?_⟩
    simp only [LRUKReplacer.size] at hs ⊢
    omega

/-- C8 witness: the contract applied to a concrete two-frame replacer at
an unknown frame, a non-evictable frame and an evictable frame. -/
theorem lruk_remove_contract_witness :
    (lookupFid 5 (LRUKReplacer.mk [(0, ⟨[4], true⟩), (1, ⟨[2], false⟩)]
        [(0, ⟨[4], true⟩)] 2 1 3 2).nodeStore = none
      ∧ (LRUKReplacer.mk [(0, ⟨[4], true⟩), (1, ⟨[2], false⟩)]
        [(0, ⟨[4], true⟩)] 2 1 3 2).remove 5
          = some (LRUKReplacer.mk [(0, ⟨[4], true⟩), (1, ⟨[2], false⟩)]
            [(0, ⟨[4], true⟩)] 2 1 3 2))
    ∧ (LRUKReplacer.mk [(0, ⟨[4], true⟩), (1, ⟨[2], false⟩)]
        [(0, ⟨[4], true⟩)] 2 1 3 2).remove 1 = none
    ∧ (∃ r2, (LRUKReplacer.mk [(0, ⟨[4], true⟩), (1, ⟨[2], false⟩)]
        [(0, ⟨[4], true⟩)] 2 1 3 2).remove 0 = some r2
          ∧ r2.nodeStore = eraseFid 0 (LRUKReplacer.mk [(0, ⟨[4], true⟩), (1, ⟨[2], false⟩)]
            [(0, ⟨[4], true⟩)] 2 1 3 2).nodeStore
          ∧ lookupFid 0 r2.nodeStore = none
          ∧ r2.size + 1 = (LRUKReplacer.mk [(0, ⟨[4], true⟩), (1, ⟨[2], false⟩)]
            [(0, ⟨[4], true⟩)] 2 1 3 2).size) :=
  ⟨⟨by decide, (lruk_remove_contract _ 5).1 (by decide)⟩,
   (lruk_remove_contract _ 1).2.1 ⟨[2], false⟩ (by decide) (by decide),
   (lruk_remove_contract _ 0).2.2 ⟨[4], true⟩ (by decide) (by decide) (by decide) (by decide)⟩

/-- C9: access recording counts.  A successful NewPage appends exactly two
RecordAccess calls for the acquired frame (one inside NewFrame, one by
NewPage itself); a FetchPage miss that obtains a frame likewise appends
exactly two (one inside NewFrame, one by FetchPage); a FetchPage hit
appends exactly one. -/
theorem bpm_access_recording (s : BPM) (now : Nat) :
    (∀ pid fid s2, s.newPage now = some (some (pid, fid), s2) →
        s2.accessLog = s.accessLog ++ [fid, fid])
    ∧ (∀ pid fid s2, ptLookup pid s.pageTable = none →
        s.fetchPage pid now = some (some fid, s2) →
        s2.accessLog = s.accessLog ++ [fid, fid])
    ∧ (∀ pid fid o2 s2, ptLookup pid s.pageTable = some fid →
        s.fetchPage pid now = some (o2, s2) →
        o2 = some fid ∧ s2.accessLog = s.accessLog ++ [fid]) := by
  refine ⟨?_, ?_, ?_⟩
  · intro pid fid s2 h
    exact ((newPage_cases h).2.2 pid fid rfl).2
  · intro pid fid s2 hl h
    exact (fetchPage_cases h).2.2 hl fid rfl
  · intro pid fid o2 s2 hl h
    exact (fetchPage_cases h).2.1 fid hl

/-- C9 witness: the counting applied to the concrete one-frame pool — a
NewPage (two accesses for frame 0), a FetchPage miss (two accesses) and a
FetchPage hit (one access). -/
theorem bpm_access_recording_witness :
    (c9Pool.newPage 1 = some (some (0, 0), c9NewState)
      ∧ c9NewState.accessLog = c9Pool.accessLog ++ [0, 0])
    ∧ (ptLookup 7 c9Pool.pageTable = none
      ∧ c9Pool.fetchPage 7 1 = some (some 0, c9MissState)
      ∧ c9MissState.accessLog = c9Pool.accessLog ++ [0, 0])
    ∧ (ptLookup 0 c9NewState.pageTable = some 0
      ∧ c9NewState.fetchPage 0 3 = some (some 0, c9HitState)
      ∧ c9HitState.accessLog = c9NewState.accessLog ++ [0]) :=
  ⟨⟨by decide, (bpm_access_recording c9Pool 1).1 0 0 c9NewState (by decide)⟩,
   ⟨by decide, by decide,
    (bpm_access_recording c9Pool 1).2.1 7 0 c9MissState (by decide) (by decide)⟩,
   ⟨by decide, by decide,
    ((bpm_access_recording c9NewState 3).2.2 0 0 (some 0) c9HitState (by decide) (by decide)).2⟩⟩

/-- C10: a NewPage call that fails to obtain a frame still advances the
page-id allocator by exactly one and changes nothing else in the pool
state; the burned id is below every id any later NewPage on that state can
hand out, so it is never handed out and leaves a permanent gap (the
deallocator never moves the counter back). -/
theorem bpm_newpage_burns_one_id (s : BPM) (now : Nat) (s2 : BPM)
    (h : s.newPage now = some (none, s2)) :
    s2 = { s with nextPageId := s.nextPageId + 1 }
    ∧ ∀ ops pid, pid ∈ s2.run ops → s.nextPageId < pid := by
  have hc := newPage_cases h
  refine ⟨hc.2.1 rfl, ?_⟩
  intro ops pid hm
  have hlt : s.nextPageId < s2.nextPageId := by
    rw [hc.1]
    omega
  exact run_lower_bound ops s2 s.nextPageId hlt pid hm

/-- C10 witness: the failing NewPage on the concrete one-frame pool whose
only frame is pinned burns id 1: the state changes only in the allocator
counter, and no page id handed out along any later trace equals the
burned id. -/
theorem bpm_newpage_burns_one_id_witness :
    c9NewState.newPage 5 = some (none, c10FailState)
    ∧ (c10FailState = { c9NewState with nextPageId := c9NewState.nextPageId + 1 }
      ∧ ∀ ops pid, pid ∈ c10FailState.run ops → c9NewState.nextPageId < pid) :=
  ⟨by decide, bpm_newpage_burns_one_id c9NewState 5 c10FailState (by decide)⟩

end BusTub
